import Mathlib

/-!
Verification development for the HSBC statement line parser
(`src/hsbcparser/parse.py`, primary module).  The parsing core is embedded
shallowly over `List Char`: each Python function that the claims touch is
translated into an executable Lean definition, and the claimed properties
are proved (or refuted) about those definitions.  The regular expressions
used by the source are small and deterministic, so they are embedded as
explicit character-level scanners that reproduce Python `re` semantics
(leftmost non-overlapping matches, greedy quantifiers, `MULTILINE` `$`,
ASCII character classes — all inputs of interest are ASCII).
-/

namespace HSBC

abbrev Chars := List Char

/-- ASCII whitespace class of `\s` (and of Python `str.split` / `str.strip`). -/
def isSpaceChar (c : Char) : Bool :=
  c == ' ' || c == '\t' || c == '\n' || c == '\r' || c == '\x0b' || c == '\x0c'

/-- Word characters for `\b` boundaries: `[A-Za-z0-9_]`. -/
def isWordChar (c : Char) : Bool :=
  c.isAlpha || c.isDigit || c == '_'

/-- Numeric value of a digit character. -/
def digitVal (c : Char) : Nat := c.toNat - '0'.toNat

/-- `text.replace(",", " ").replace('"', "")` from `extract_dates`:
commas become spaces, double quotes are deleted. -/
def normalise (s : Chars) : Chars :=
  (s.map fun c => if c = ',' then ' ' else c).filter fun c => c ≠ '"'

/-- Matches `[A-Za-z]{3} \d{2}` at the head of the list, returning the
matched characters and the rest. -/
def dateShapeTail : Chars → Option (Chars × Chars)
  | a :: b :: c :: ' ' :: y1 :: y2 :: r =>
    if a.isAlpha && b.isAlpha && c.isAlpha && y1.isDigit && y2.isDigit then
      some ([a, b, c, ' ', y1, y2], r)
    else none
  | _ => none

/-- Matches `\d{1,2} [A-Za-z]{3} \d{2}` at the head of the list.  The
two-digit and one-digit day alternatives are mutually exclusive (the second
character is either a digit or a space), so no backtracking arises. -/
def dateShape : Chars → Option (Chars × Chars)
  | d1 :: d2 :: rest =>
    if d1.isDigit then
      if d2.isDigit then
        match rest with
        | ' ' :: rest2 =>
          match dateShapeTail rest2 with
          | some (t, r) => some (d1 :: d2 :: ' ' :: t, r)
          | none => none
        | _ => none
      else if d2 = ' ' then
        match dateShapeTail rest with
        | some (t, r) => some (d1 :: ' ' :: t, r)
        | none => none
      else none
    else none
  | _ => none

/-- `\b` before the match: the first matched character is a digit, so the
boundary holds iff the preceding character (if any) is not a word char. -/
def prevBoundary : Option Char → Bool
  | none => true
  | some c => !(isWordChar c)

/-- `\b` after the match: the last matched character is a digit, so the
boundary holds iff the following character (if any) is not a word char. -/
def nextBoundary : Chars → Bool
  | [] => true
  | c :: _ => !(isWordChar c)

/-- `re.finditer(r"\b\d{1,2} [A-Za-z]{3} \d{2}\b", ·)`: leftmost
non-overlapping matches with their start offset and inclusive end offset
(`m.end() - 1`).  The fuel argument starts at the length of the scanned
text; every step consumes at least one character, so the fuel never runs
out on the real argument. -/
def findDatesAux : Nat → Option Char → Nat → Chars → List (Chars × Nat × Nat)
  | 0, _, _, _ => []
  | _, _, _, [] => []
  | fuel + 1, prev, i, c :: rest =>
    match (if prevBoundary prev then dateShape (c :: rest) else none) with
    | some (txt, r) =>
      if nextBoundary r then
        (txt, i, i + txt.length - 1) :: findDatesAux fuel txt.getLast? (i + txt.length) r
      else findDatesAux fuel (some c) (i + 1) rest
    | none => findDatesAux fuel (some c) (i + 1) rest

def findDates (s : Chars) : List (Chars × Nat × Nat) :=
  findDatesAux s.length none 0 s

/-- Python `str.split()`: split on whitespace runs, no empty fields. -/
def pysplitAux : Chars → Chars → List Chars
  | [], acc => if acc.isEmpty then [] else [acc.reverse]
  | c :: rest, acc =>
    if isSpaceChar c then
      if acc.isEmpty then pysplitAux rest [] else acc.reverse :: pysplitAux rest []
    else pysplitAux rest (c :: acc)

def pysplit (s : Chars) : List Chars := pysplitAux s []

/-- Python `str.capitalize()`: first character uppercased, rest lowercased. -/
def capitalizePy : Chars → Chars
  | [] => []
  | c :: r => c.toUpper :: r.map Char.toLower

/-- Python `str.rstrip(",")`. -/
def rstripComma (s : Chars) : Chars :=
  (s.reverse.dropWhile (· = ',')).reverse

def monthAbbrevs : List Chars :=
  ["Jan".data, "Feb".data, "Mar".data, "Apr".data, "May".data, "Jun".data,
   "Jul".data, "Aug".data, "Sep".data, "Oct".data, "Nov".data, "Dec".data]

/-- The month filter of `extract_dates`:
`txt.split()[1].rstrip(",").capitalize() in valid_months`. -/
def monthValid (txt : Chars) : Bool :=
  monthAbbrevs.contains (capitalizePy (rstripComma ((pysplit txt).getD 1 [])))

/-- `extract_dates`: normalise, scan for date-shaped substrings, filter by
month validity, and return the texts plus the first match's start offset
and the last match's inclusive end offset (offsets in the normalised text). -/
def extract_dates (s : Chars) : List Chars × Option Nat × Option Nat :=
  let ms := findDates (normalise s)
  let valid := ms.filter fun m => monthValid m.1
  match valid with
  | [] => ([], none, none)
  | v :: vs =>
    ((v :: vs).map (·.1), some v.2.1,
      some (((v :: vs).getLast (List.cons_ne_nil v vs)).2.2))

/-- `%y`: two-digit years 00–68 map to 2000–2068, 69–99 to 1969–1999. -/
def yearOfYY (yy : Nat) : Nat := if yy ≤ 68 then 2000 + yy else 1900 + yy

def isLeap (y : Nat) : Bool := y % 4 == 0 && (y % 100 != 0 || y % 400 == 0)

def daysInMonth (y m : Nat) : Nat :=
  if m = 2 then (if isLeap y then 29 else 28)
  else if m = 4 ∨ m = 6 ∨ m = 9 ∨ m = 11 then 30
  else 31

/-- `%b`: case-insensitive three-letter English month abbreviation, 1-based. -/
def monthNum (s : Chars) : Option Nat :=
  (monthAbbrevs.findIdx? (· == capitalizePy s)).map (· + 1)

/-- Tail of `strptime(s, "%d %b %y")` after the day: month abbreviation,
space, two-digit year, end of input; the day is validated against the
month length. -/
def finishDate (d : Nat) : Chars → Option (Nat × Nat × Nat)
  | a :: b :: c :: ' ' :: y1 :: y2 :: [] =>
    if y1.isDigit && y2.isDigit then
      match monthNum [a, b, c] with
      | some m =>
        let y := yearOfYY (10 * digitVal y1 + digitVal y2)
        if 1 ≤ d ∧ d ≤ daysInMonth y m then some (y, m, d) else none
      | none => none
    else none
  | _ => none

/-- `parse_date`: `datetime.strptime(date_str, "%d %b %y")`, returning
`(year, month, day)` on success and `none` where the Python code raises. -/
def parse_date (s : Chars) : Option (Nat × Nat × Nat) :=
  match s with
  | d1 :: d2 :: rest =>
    if d1.isDigit then
      if d2.isDigit then
        match rest with
        | ' ' :: rest2 => finishDate (10 * digitVal d1 + digitVal d2) rest2
        | _ => none
      else if d2 = ' ' then finishDate (digitVal d1) rest
      else none
    else none
  | _ => none

/-! ### Amount extraction

Embedding of
`re.findall(r'(?:,|\s|\")(\d{1,3}(?:,\d{3})*\.\d{2})(CR|DR)?\"?,?$', text, re.MULTILINE)`.
At any given start position this pattern matches deterministically: the
quantifier alternatives that regex backtracking would try all fail exactly
when the greedy choice fails (shorter `\d{1,3}` choices leave a digit where
`,` or `.` is required; declining a present `CR`/`DR`, quote or comma leaves
that same character where the following part of the pattern rejects it), so
the scanner below consumes greedily with the regex's doom cases made
explicit. -/

/-- The class `(?:,|\s|\")` that must immediately precede the numeral. -/
def isDelim (c : Char) : Bool := c == ',' || isSpaceChar c || c == '"'

/-- `(?:,\d{3})*` after the leading digit group: consume `,ddd` repeatedly.
A fourth consecutive digit after a group dooms the whole numeral (the regex
would backtrack onto a `,` where `\.` is required, which always fails). -/
def headIsDigit : Chars → Bool
  | d :: _ => d.isDigit
  | [] => false

def groupLoop (acc : Chars) : Chars → Option (Chars × Chars)
  | x :: a :: b :: c :: rest =>
    if x = ',' ∧ (a.isDigit && b.isDigit && c.isDigit) = true then
      if headIsDigit rest then none else groupLoop (acc ++ [x, a, b, c]) rest
    else some (acc, x :: a :: b :: c :: rest)
  | r => some (acc, r)

/-- `\d{1,3}(?:,\d{3})*\.\d{2}`: the captured numeral.  An initial digit
run longer than three dooms the numeral (every `\d{1,3}` choice leaves a
digit where `\.` or `,` is required). -/
def parseNumeral (s : Chars) : Option (Chars × Chars) :=
  if (s.takeWhile Char.isDigit).isEmpty || 3 < (s.takeWhile Char.isDigit).length then
    none
  else
    match groupLoop (s.takeWhile Char.isDigit) (s.dropWhile Char.isDigit) with
    | some (intPart, r) =>
      match r with
      | '.' :: f1 :: f2 :: r2 =>
        if f1.isDigit && f2.isDigit then some (intPart ++ ['.', f1, f2], r2)
        else none
      | _ => none
    | none => none

/-- `(CR|DR)?`, greedy; declining a present literal can never rescue the
match, so consuming it when present is exact. -/
def dropSufCR : Chars → Chars × Chars
  | 'C' :: 'R' :: r => (['C', 'R'], r)
  | 'D' :: 'R' :: r => (['D', 'R'], r)
  | r => ([], r)

/-- `\"?` or `,?`: drop one occurrence of `c` at the head if present. -/
def dropIfHead (c : Char) : Chars → Chars
  | x :: r => if x = c then r else x :: r
  | [] => []

/-- `$` under `re.MULTILINE`: end of string or directly before a newline. -/
def isDollar : Chars → Bool
  | [] => true
  | c :: _ => c == '\n'

/-- `(CR|DR)?\"?,?$` after the numeral: returns the suffix capture (empty
when absent, as `re.findall` reports unmatched groups) and the rest of the
text after the match. -/
def parseTail (s : Chars) : Option (Chars × Chars) :=
  if isDollar (dropIfHead ',' (dropIfHead '"' (dropSufCR s).2)) then
    some ((dropSufCR s).1, dropIfHead ',' (dropIfHead '"' (dropSufCR s).2))
  else none

/-- One attempted match of the amount pattern at the head of the text:
delimiter, numeral, tail.  Returns the two captures and the rest of the
text after the match. -/
def amountMatchHere : Chars → Option ((Chars × Chars) × Chars)
  | c :: rest =>
    if isDelim c then
      match parseNumeral rest with
      | some (num, r1) =>
        match parseTail r1 with
        | some (suf, r2) => some ((num, suf), r2)
        | none => none
      | none => none
    else none
  | [] => none

/-- `re.findall`: scan left to right, recording each leftmost match and
resuming at its end.  Fuel starts at the length of the text; every step
consumes at least one character, so the fuel never runs out. -/
def findAmountsAux : Nat → Chars → List (Chars × Chars)
  | 0, _ => []
  | _, [] => []
  | fuel + 1, c :: rest =>
    match amountMatchHere (c :: rest) with
    | some (g, r2) => g :: findAmountsAux fuel r2
    | none => findAmountsAux fuel rest

def findAmounts (s : Chars) : List (Chars × Chars) := findAmountsAux s.length s

/-- Parse failures of the core, named as in the specification's taxonomy;
each corresponds to one `raise` site in the Python source. -/
inductive Err
  | malformedDateCount
  | unexpectedDatePlacement
  | dateParseError
  | noAmountFound
  | ambiguousAmount
  | amountOutOfRange
  | unrecognisedSuffix
  | amountTextNotFound
deriving DecidableEq

/-- Result of a fallible parsing step (Python raises `ValueError`). -/
inductive Res (α : Type)
  | ok : α → Res α
  | err : Err → Res α
deriving DecidableEq

def natOfDigits (ds : Chars) : Nat :=
  ds.foldl (fun n c => 10 * n + digitVal c) 0

/-- `Decimal(num_str.replace(",", "")).quantize(Decimal("0.01"))` for a
numeral with exactly two fractional digits, represented exactly in cents:
strip the grouping commas and the decimal point and read the digits. -/
def centsOfNumeral (num : Chars) : Nat :=
  natOfDigits (num.filter fun c => c != ',' && c != '.')

/-- `crdr = suffix or "Payment"`. -/
def crdrOf (suf : Chars) : Chars :=
  if suf.isEmpty then "Payment".data else suf

/-- `parse_transaction_amounts`: the list of `(amount in cents, crdr)`
pairs, or the no-amount failure when the scan finds nothing. -/
def parse_transaction_amounts (s : Chars) : Res (List (Nat × Chars)) :=
  match findAmounts s with
  | [] => .err .noAmountFound
  | ms => .ok (ms.map fun g => (centsOfNumeral g.1, crdrOf g.2))

/-! ### Transaction builder -/

/-- A successfully parsed transaction.  Dates are `(year, month, day)`
triples and the amount is in exact cents. -/
structure Transaction where
  received : Nat × Nat × Nat
  tdate : Nat × Nat × Nat
  amount : Nat
  crdr : Chars
  is_contactless : Bool
  details : Chars
deriving DecidableEq

/-- A record yielded for one line: a `Transaction`, or a `NullTransaction`
(all fields `None` except `details`). -/
inductive Rec
  | tx : Transaction → Rec
  | nullTx : Chars → Rec
deriving DecidableEq

/-- Digits of a natural number in base 10 (most significant first). -/
def natDigits (n : Nat) : Chars := Nat.toDigits 10 n

/-- Insert grouping commas into a reversed digit list. -/
def group3 : Chars → Chars
  | a :: b :: c :: d :: r => a :: b :: c :: ',' :: group3 (d :: r)
  | r => r

/-- Two-digit zero-padded rendering of `n < 100`. -/
def pad2 (n : Nat) : Chars :=
  if n < 10 then '0' :: natDigits n else natDigits n

/-- `f"{amount:,}"` for a `Decimal` quantized to two places: thousands
grouping on the integer part, a point, and exactly two fraction digits. -/
def formatAmount (cents : Nat) : Chars :=
  (group3 ((natDigits (cents / 100)).reverse)).reverse ++ '.' :: pad2 (cents % 100)

/-- Python `str.find`: index of the leftmost occurrence of `needle`. -/
def findSub (needle : Chars) : Chars → Option Nat
  | [] => if needle.isEmpty then some 0 else none
  | c :: rest =>
    if needle.isPrefixOf (c :: rest) then some 0
    else (findSub needle rest).map (· + 1)

/-- Python `str.strip()` over the ASCII whitespace class. -/
def pystrip (s : Chars) : Chars :=
  ((s.dropWhile isSpaceChar).reverse.dropWhile isSpaceChar).reverse

/-- `details`: the remainder with the located amount text excised, commas
replaced by spaces, and surrounding whitespace stripped. -/
def detailsOf (remaining : Chars) (amount_start sa_len : Nat) : Chars :=
  pystrip
    ((remaining.take amount_start ++
      remaining.drop (amount_start + sa_len)).map
      fun c => if c = ',' then ' ' else c)

/-- The final stage of `try_transaction`: locate the formatted amount text
in the remainder (`AmountTextNotFound` when absent), excise it to build the
details, detect the contactless marker and emit the `Transaction`. -/
def buildTx (rdate ddate : Nat × Nat × Nat) (amount : Nat) (crdr : Chars)
    (remaining : Chars) : Res (List Rec) :=
  match findSub (formatAmount amount) remaining with
  | none => .err .amountTextNotFound
  | some amount_start =>
    .ok [.tx ⟨rdate, ddate, amount, crdr,
      (")))".data).isPrefixOf
        (detailsOf remaining amount_start (formatAmount amount).length),
      detailsOf remaining amount_start (formatAmount amount).length⟩]

/-- `try_transaction`: parse one line into a singleton list of records
(the Python function is a generator that yields exactly once on every
non-raising path), or fail with the named error of the `raise` reached. -/
def try_transaction (line : Chars) : Res (List Rec) :=
  match extract_dates line with
  | ([], _, _) => .ok [.nullTx line]
  | (da :: rest, first_ix, last_ix) =>
    match rest with
    | [db] =>
      if first_ix ≠ some 0 then .err .unexpectedDatePlacement
      else
        match parse_date da, parse_date db with
        | some rdate, some ddate =>
          match parse_transaction_amounts (line.drop (last_ix.getD 0 + 1)) with
          | .err e => .err e
          | .ok amounts =>
            match amounts with
            | [(amount, crdr)] =>
              if crdr ∉ (["CR".data, "DR".data, "Payment".data] : List Chars) then
                .err .unrecognisedSuffix
              else if 10000000 < amount then .err .amountOutOfRange
              else buildTx rdate ddate amount crdr (line.drop (last_ix.getD 0 + 1))
            | _ => .err .ambiguousAmount
        | _, _ => .err .dateParseError
    | _ => .err .malformedDateCount

/-! ### General lemmas about the embedding -/

/-- When the Date Extractor finds no valid date, `try_transaction` yields a
single `NullTransaction` carrying the line verbatim. -/
theorem nullTx_of_no_dates (line : Chars) (h : (extract_dates line).1 = []) :
    try_transaction line = .ok [.nullTx line] := by
  unfold try_transaction
  rcases hE : extract_dates line with ⟨ds, fi, li⟩
  rw [hE] at h
  simp only at h
  subst h
  rfl

/-- `f c = '"'` can only happen when `c = '"'`, so on a quote-free line the
normalisation is the one-for-one comma-to-space map. -/
theorem normalise_no_quote (s : Chars) (h : '"' ∉ s) :
    normalise s = s.map fun c => if c = ',' then ' ' else c := by
  unfold normalise
  rw [List.filter_eq_self]
  intro c hc
  rcases List.mem_map.mp hc with ⟨a, ha, rfl⟩
  by_cases hcomma : a = ','
  · simp [hcomma]
  · simp only [if_neg hcomma, decide_eq_true_eq]
    intro rfl2
    exact h (by simpa [rfl2] using ha)

/-! ### Concrete input lines used by the claims -/

/-- The literal line of the spec's third concrete scenario. -/
def lineC2 : Chars := "28 May 24 28 May,24 PAYMENT - THANK YOU,\"4,000.00CR\"".data

/-- A transaction line with three amount-shaped trailing substrings. -/
def lineC3 : Chars := "01 Mar 24 02 Apr 24 X,100.00,200.00,300.00".data

/-- A transaction line containing a double quote between the two dates. -/
def lineC1 : Chars := "01 Mar 24\" 02 Apr 24,1.00".data

/-- A successfully parsing line whose amount excision re-joins the text
into a fresh date-shaped substring inside the resulting details. -/
def lineC7 : Chars := "01 Mar 24 02 Apr 24,100.003 May 24 ,100.00".data

/-! ### C1 -/

/-- C1, counterexample: the claim says the normalisation performed by
`extract_dates` never changes the character count of the line.  It does:
double quotes are deleted (replaced by the empty string, not by a space),
so this quote-bearing line shrinks under normalisation. -/
theorem C1_counterexample : (normalise lineC1).length ≠ lineC1.length := by decide

/-- C1, amended: on every line containing no double-quote character the
normalisation is one-for-one (commas become spaces), so it preserves the
character count and slicing commutes with it — in particular the offsets
reported by `extract_dates` are valid against the original line, and
dropping `last_ix + 1` characters of the original yields exactly the
normalised text after the last date. -/
theorem C1_no_quote_offsets_valid (s : Chars) (k : Nat) (h : '"' ∉ s) :
    (normalise s).length = s.length ∧
      normalise (s.drop k) = (normalise s).drop k := by
  have hd : '"' ∉ s.drop k := fun hmem => h (List.drop_subset k s hmem)
  rw [normalise_no_quote s h, normalise_no_quote (s.drop k) hd]
  exact ⟨List.length_map s _, List.map_drop _ s k⟩

/-- C1, witness for the amended theorem at a concrete quote-free line. -/
theorem C1_witness :
    (normalise ("01 Mar 24 02 Apr 24,1.00".data)).length =
        ("01 Mar 24 02 Apr 24,1.00".data).length ∧
      normalise (("01 Mar 24 02 Apr 24,1.00".data).drop 19) =
        (normalise ("01 Mar 24 02 Apr 24,1.00".data)).drop 19 :=
  C1_no_quote_offsets_valid ("01 Mar 24 02 Apr 24,1.00".data) 19 (by decide)

/-! ### C2 -/

/-- C2, counterexample: the spec's scenario expects
`details = "PAYMENT - THANK YOU"`, but the code removes only the numeral
text `4,000.00` from the remainder — the `CR` suffix and the wrapping
quotes survive into the details — so no such record is produced (with
either value of the contactless flag). -/
theorem C2_counterexample :
    try_transaction lineC2 ≠
        .ok [.tx ⟨(2024, 5, 28), (2024, 5, 28), 400000, "CR".data, false,
          "PAYMENT - THANK YOU".data⟩] ∧
      try_transaction lineC2 ≠
        .ok [.tx ⟨(2024, 5, 28), (2024, 5, 28), 400000, "CR".data, true,
          "PAYMENT - THANK YOU".data⟩] :=
  ⟨by decide, by decide⟩

/-- C2, amended: the line parses to received 2024-05-28, transaction date
2024-05-28, amount 4000.00, crdr CR — but the details keep the unmatched
leftovers of the amount cell: `PAYMENT - THANK YOU "CR"`. -/
theorem C2_literal_line :
    try_transaction lineC2 =
      .ok [.tx ⟨(2024, 5, 28), (2024, 5, 28), 400000, "CR".data, false,
        "PAYMENT - THANK YOU \"CR\"".data⟩] := by decide

/-! ### C3 (counterexample part) -/

/-- C3, counterexample: a single line with three amount-shaped trailing
substrings does not fail with `AmbiguousAmount`; the end-of-line-anchored
scan finds only the final amount and the line parses successfully. -/
theorem C3_counterexample :
    try_transaction lineC3 ≠ .err .ambiguousAmount ∧
      try_transaction lineC3 =
        .ok [.tx ⟨(2024, 3, 1), (2024, 4, 2), 30000, "Payment".data, false,
          "X 100.00 200.00".data⟩] :=
  ⟨by decide, by decide⟩

/-! ### C6 -/

/-- C6: a line in which the Date Extractor finds no valid-month date parses
without error to a `NullTransaction` whose details are the original line
verbatim, all other fields absent. -/
theorem C6_no_dates_null_transaction (line : Chars)
    (h : (extract_dates line).1 = []) :
    try_transaction line = .ok [.nullTx line] :=
  nullTx_of_no_dates line h

/-- C6, witness at the spec's second concrete scenario. -/
theorem C6_witness :
    try_transaction ("DIRECT DEBIT PAYMENT - THANK YOU,,730.00CR".data) =
      .ok [.nullTx ("DIRECT DEBIT PAYMENT - THANK YOU,,730.00CR".data)] :=
  C6_no_dates_null_transaction ("DIRECT DEBIT PAYMENT - THANK YOU,,730.00CR".data)
    (by decide)

/-! ### C7 -/

/-- C7, counterexample: this line parses successfully, but the amount
excision glues `2 Ma` and `r 24` of the remainder into a fresh date-shaped
substring, so its details re-parse to the `MalformedDateCount` failure —
not to a `NullTransaction`. -/
theorem C7_counterexample :
    try_transaction lineC7 =
        .ok [.tx ⟨(2024, 3, 1), (2024, 4, 2), 10000, "Payment".data, false,
          "3 May 24  100.00".data⟩] ∧
      try_transaction ("3 May 24  100.00".data) = .err .malformedDateCount :=
  ⟨by decide, by decide⟩

/-- C7, amended: re-parsing the details of a successful parse yields a
`NullTransaction` carrying the details verbatim whenever the Date
Extractor finds no valid date in them; the excision does not guarantee
that in general (see the counterexample). -/
theorem C7_details_reparse (line : Chars) (t : Transaction)
    (_h : try_transaction line = .ok [.tx t])
    (hd : (extract_dates t.details).1 = []) :
    try_transaction t.details = .ok [.nullTx t.details] :=
  nullTx_of_no_dates t.details hd

/-- C7, witness: the details produced from the spec's literal scenario line
re-parse to a `NullTransaction`. -/
theorem C7_witness :
    try_transaction
        ((⟨(2024, 5, 28), (2024, 5, 28), 400000, "CR".data, false,
          "PAYMENT - THANK YOU \"CR\"".data⟩ : Transaction).details) =
      .ok [.nullTx
        ((⟨(2024, 5, 28), (2024, 5, 28), 400000, "CR".data, false,
          "PAYMENT - THANK YOU \"CR\"".data⟩ : Transaction).details)] :=
  C7_details_reparse lineC2 _ (by decide) (by decide)

/-! ### C8 (counterexample part) -/

/-- C8, counterexample: extracting from the grouped form `4,000.00` yields
4000.00, but a line ending in the ungrouped form `4000.00` has no match at
all — the numeral pattern admits at most three digits before the first
grouping comma — so extraction fails with `NoAmountFound` instead of
yielding the same value. -/
theorem C8_counterexample :
    parse_transaction_amounts (",\"4,000.00\"".data) =
        .ok [(400000, "Payment".data)] ∧
      parse_transaction_amounts (",4000.00".data) = .err .noAmountFound :=
  ⟨by decide, by decide⟩

/-! ### The end-of-line anchor admits at most one match per line -/

theorem isDollar_cases (r : Chars) (h : isDollar r = true) :
    r = [] ∨ ∃ t, r = '\n' :: t := by
  cases r with
  | nil => exact Or.inl rfl
  | cons c t =>
    right
    refine ⟨t, ?_⟩
    simp only [isDollar, beq_iff_eq] at h
    rw [h]

theorem dropSufCR_snd_suffix (s : Chars) : (dropSufCR s).2 <:+ s := by
  unfold dropSufCR
  split
  · exact ⟨['C', 'R'], rfl⟩
  · exact ⟨['D', 'R'], rfl⟩
  · exact List.suffix_refl _

theorem dropSufCR_fst_cases (s : Chars) :
    (dropSufCR s).1 = [] ∨ (dropSufCR s).1 = ['C', 'R'] ∨
      (dropSufCR s).1 = ['D', 'R'] := by
  unfold dropSufCR
  split
  · exact Or.inr (Or.inl rfl)
  · exact Or.inr (Or.inr rfl)
  · exact Or.inl rfl

theorem dropIfHead_suffix (c : Char) (s : Chars) : dropIfHead c s <:+ s := by
  unfold dropIfHead
  split
  · split
    · exact ⟨[_], rfl⟩
    · exact List.suffix_refl _
  · exact List.suffix_refl _

theorem parseTail_spec (s suf r : Chars) (h : parseTail s = some (suf, r)) :
    isDollar r = true ∧ r <:+ s ∧
      (suf = [] ∨ suf = ['C', 'R'] ∨ suf = ['D', 'R']) := by
  unfold parseTail at h
  split at h
  · simp only [Option.some.injEq, Prod.mk.injEq] at h
    obtain ⟨rfl, rfl⟩ := h
    refine ⟨by assumption, ?_, dropSufCR_fst_cases s⟩
    exact ((dropIfHead_suffix ',' _).trans (dropIfHead_suffix '"' _)).trans
      (dropSufCR_snd_suffix s)
  · exact absurd h (by simp)

theorem groupLoop_suffix (acc s ip r : Chars)
    (h : groupLoop acc s = some (ip, r)) : r <:+ s := by
  induction acc, s using groupLoop.induct generalizing ip r with
  | case1 acc x a b c rest hcond hhead =>
    rw [groupLoop, if_pos hcond, if_pos hhead] at h
    exact absurd h (by simp)
  | case2 acc x a b c rest hcond hhead ih =>
    rw [groupLoop, if_pos hcond, if_neg hhead] at h
    exact (ih _ _ h).trans ⟨[x, a, b, c], rfl⟩
  | case3 acc x a b c rest hcond =>
    rw [groupLoop, if_neg hcond] at h
    simp only [Option.some.injEq, Prod.mk.injEq] at h
    obtain ⟨rfl, rfl⟩ := h
    exact List.suffix_refl _
  | case4 acc r2 hshape =>
    have he : groupLoop acc r2 = some (acc, r2) := by
      rcases r2 with _ | ⟨x, _ | ⟨y, _ | ⟨z, _ | ⟨w, t⟩⟩⟩⟩
      · rfl
      · rfl
      · rfl
      · rfl
      · exact absurd rfl (hshape x y z w t)
    rw [he] at h
    simp only [Option.some.injEq, Prod.mk.injEq] at h
    obtain ⟨rfl, rfl⟩ := h
    exact List.suffix_refl _

theorem parseNumeral_suffix (s num r : Chars)
    (h : parseNumeral s = some (num, r)) : r <:+ s := by
  unfold parseNumeral at h
  split at h
  · exact absurd h (by simp)
  · split at h
    · split at h
      · split at h
        · rename_i x t r0 f1 f2 r2 heq hdig
          simp only [Option.some.injEq, Prod.mk.injEq] at h
          obtain ⟨rfl, rfl⟩ := h
          have h1 : r2 <:+ '.' :: f1 :: f2 :: r2 := ⟨['.', f1, f2], rfl⟩
          exact (h1.trans (groupLoop_suffix _ _ _ _ heq)).trans
            (List.dropWhile_suffix _)
        · exact absurd h (by simp)
      · exact absurd h (by simp)
    · exact absurd h (by simp)

theorem amountMatchHere_spec (s : Chars) (g : Chars × Chars) (r : Chars)
    (h : amountMatchHere s = some (g, r)) :
    isDollar r = true ∧ r <:+ s ∧
      (g.2 = [] ∨ g.2 = ['C', 'R'] ∨ g.2 = ['D', 'R']) := by
  cases s with
  | nil => exact Option.noConfusion h
  | cons c rest =>
    unfold amountMatchHere at h
    split at h
    · split at h
      · split at h
        · split at h
          · rename_i x0 dch tl heqCons hDelim xN num r0 heqNum xT suf1 r2 heqTail
            simp only [Option.some.injEq, Prod.mk.injEq] at h
            obtain ⟨rfl, rfl⟩ := h
            obtain ⟨hdollar, hsuffix, hshape⟩ := parseTail_spec r0 suf1 r2 heqTail
            obtain ⟨rfl, rfl⟩ : c = dch ∧ rest = tl := by
              injection heqCons with h1 h2
              exact ⟨h1, h2⟩
            exact ⟨hdollar,
              (hsuffix.trans (parseNumeral_suffix _ _ _ heqNum)).trans ⟨[c], rfl⟩,
              hshape⟩
          · exact absurd h (by simp)
        · exact absurd h (by simp)
      · exact absurd h (by simp)
    · exact absurd h (by simp)

theorem findAmountsAux_nil (fuel : Nat) : findAmountsAux fuel [] = [] := by
  cases fuel with
  | zero => rfl
  | succ f => rfl

/-- On a newline-free text every successful match of the end-anchored
amount pattern consumes the entire rest of the text, so the scan records
at most one match. -/
theorem findAmountsAux_len_le_one (fuel : Nat) (s : Chars) (h : '\n' ∉ s) :
    (findAmountsAux fuel s).length ≤ 1 := by
  induction fuel, s using findAmountsAux.induct with
  | case1 s => simp [findAmountsAux]
  | case2 t ht =>
    rw [findAmountsAux_nil]
    simp
  | case3 fuel c rest g r2 hm ih =>
    rw [findAmountsAux, hm]
    dsimp only
    obtain ⟨hdollar, hsuffix, _⟩ := amountMatchHere_spec _ _ _ hm
    rcases isDollar_cases r2 hdollar with rfl | ⟨t, rfl⟩
    · rw [findAmountsAux_nil]
      simp
    · exact absurd (hsuffix.subset (by simp)) h
  | case4 fuel c rest hm ih =>
    rw [findAmountsAux, hm]
    dsimp only
    exact ih fun hmem => h (List.mem_cons_of_mem c hmem)

/-- Every suffix capture recorded by the scan is empty, `CR` or `DR`. -/
theorem findAmountsAux_suf_shape (fuel : Nat) (s : Chars)
    (g : Chars × Chars) (hg : g ∈ findAmountsAux fuel s) :
    g.2 = [] ∨ g.2 = ['C', 'R'] ∨ g.2 = ['D', 'R'] := by
  induction fuel, s using findAmountsAux.induct with
  | case1 s => exact absurd hg (by simp [findAmountsAux])
  | case2 t ht =>
    rw [findAmountsAux_nil] at hg
    exact absurd hg (by simp)
  | case3 fuel c rest g1 r2 hm ih =>
    rw [findAmountsAux, hm] at hg
    dsimp only at hg
    rcases List.mem_cons.mp hg with rfl | htail
    · exact (amountMatchHere_spec _ _ _ hm).2.2
    · exact ih htail
  | case4 fuel c rest hm ih =>
    rw [findAmountsAux, hm] at hg
    dsimp only at hg
    exact ih hg

/-! ### C4 -/

/-- C4: on any input without a newline the end-of-line-anchored scan finds
at most one match, so `parse_transaction_amounts` either fails with the
no-amount error or returns a list of length exactly one — the
more-than-one-amount branch of `try_transaction` is unreachable for any
single line produced by `splitlines`. -/
theorem C4_single_line_at_most_one_amount (s : Chars) (h : '\n' ∉ s) :
    parse_transaction_amounts s = .err .noAmountFound ∨
      ∃ a, parse_transaction_amounts s = .ok [a] := by
  have hl : (findAmounts s).length ≤ 1 := findAmountsAux_len_le_one s.length s h
  unfold parse_transaction_amounts
  cases hfa : findAmounts s with
  | nil => exact Or.inl rfl
  | cons x xs =>
    rw [hfa] at hl
    cases xs with
    | nil => exact Or.inr ⟨_, rfl⟩
    | cons y ys =>
      simp only [List.length_cons] at hl
      omega

/-- C4, witness at a concrete single line. -/
theorem C4_witness :
    parse_transaction_amounts (",100.00".data) = .err .noAmountFound ∨
      ∃ a, parse_transaction_amounts (",100.00".data) = .ok [a] :=
  C4_single_line_at_most_one_amount (",100.00".data) (by decide)

/-! ### C10 -/

/-- C10: for every input line `try_transaction` has exactly one outcome —
it either raises one named parse failure or yields exactly one record
(never zero, never more than one). -/
theorem C10_exactly_one_outcome (line : Chars) :
    (∃ e, try_transaction line = .err e) ∨
      ∃ r, try_transaction line = .ok [r] := by
  unfold try_transaction buildTx
  repeat' split
  all_goals
    first
      | exact Or.inl ⟨_, rfl⟩
      | exact Or.inr ⟨_, rfl⟩

/-! ### Inversion lemmas for the transaction builder -/

theorem pta_ok (s : Chars) (l : List (Nat × Chars))
    (h : parse_transaction_amounts s = .ok l) :
    l = (findAmounts s).map fun g => (centsOfNumeral g.1, crdrOf g.2) := by
  unfold parse_transaction_amounts at h
  split at h
  · exact Res.noConfusion h
  · exact (Res.ok.inj h).symm

theorem crdrOf_shape (suf : Chars)
    (h : suf = [] ∨ suf = ['C', 'R'] ∨ suf = ['D', 'R']) :
    (crdrOf suf = "CR".data ∨ crdrOf suf = "DR".data ∨
      crdrOf suf = "Payment".data) ∧
      crdrOf suf ∈ (["CR".data, "DR".data, "Payment".data] : List Chars) := by
  rcases h with rfl | rfl | rfl
  · exact ⟨Or.inr (Or.inr (by decide)), by decide⟩
  · exact ⟨Or.inl (by decide), by decide⟩
  · exact ⟨Or.inr (Or.inl (by decide)), by decide⟩

/-- A singleton result of the amount parser comes from a singleton scan,
and its crdr tag is `crdrOf` of the recorded suffix capture. -/
theorem pta_ok_singleton (s : Chars) (amount : Nat) (crdr : Chars)
    (h : parse_transaction_amounts s = .ok [(amount, crdr)]) :
    ∃ g : Chars × Chars, findAmounts s = [g] ∧
      amount = centsOfNumeral g.1 ∧ crdr = crdrOf g.2 := by
  have hmap := pta_ok s _ h
  cases hms : findAmounts s with
  | nil =>
    rw [hms] at hmap
    exact List.noConfusion hmap
  | cons g gs =>
    rw [hms] at hmap
    cases gs with
    | nil =>
      simp only [List.map_cons, List.map_nil, List.cons.injEq, Prod.mk.injEq] at hmap
      exact ⟨g, rfl, hmap.1.1, hmap.1.2⟩
    | cons g2 gs2 => simp at hmap

/-! ### C3 -/

/-- C3, amended: the more-than-one-match guard does fail with
`AmbiguousAmount` whenever the amount scan over the remainder returns more
than one match — but (see C4 and the counterexample) the scan can only
return several matches when the line embeds a newline character, never for
a line with three amount-shaped trailing substrings. -/
theorem C3_ambiguous_guard (line da db : Chars) (l : Nat)
    (ams : List (Nat × Chars))
    (hd : extract_dates line = ([da, db], some 0, some l))
    (h1 : (parse_date da).isSome) (h2 : (parse_date db).isSome)
    (ha : parse_transaction_amounts (line.drop (l + 1)) = .ok ams)
    (hlen : 1 < ams.length) :
    try_transaction line = .err .ambiguousAmount := by
  obtain ⟨r1, hr1⟩ := Option.isSome_iff_exists.mp h1
  obtain ⟨r2, hr2⟩ := Option.isSome_iff_exists.mp h2
  rcases ams with _ | ⟨a, _ | ⟨b, t⟩⟩
  · exact absurd hlen (by simp)
  · exact absurd hlen (by simp)
  · unfold try_transaction
    rw [hd]
    dsimp only
    rw [if_neg (fun hc => hc rfl)]
    rw [hr1, hr2]
    dsimp only [Option.getD]
    rw [ha]

/-- C3, witness: a string with an embedded newline (reachable only when
the `line` argument is not a `splitlines` output) does trip the guard. -/
theorem C3_witness :
    try_transaction ("01 Mar 24 02 Apr 24,1.00\n,2.00".data) =
      .err .ambiguousAmount :=
  C3_ambiguous_guard ("01 Mar 24 02 Apr 24,1.00\n,2.00".data)
    ("01 Mar 24".data) ("02 Apr 24".data) 18
    [(100, "Payment".data), (200, "Payment".data)]
    (by decide) (by decide) (by decide) (by decide) (by decide)

/-! ### C5 -/

/-- C5: for every line that reaches the sanity check with exactly one
extracted amount, an amount of at most 100000.00 — in particular exactly
100000.00 — is not rejected as `AmountOutOfRange`, and every amount
strictly greater fails with `AmountOutOfRange`. -/
theorem C5_sanity_ceiling (line da db : Chars) (l amount : Nat) (crdr : Chars)
    (hd : extract_dates line = ([da, db], some 0, some l))
    (h1 : (parse_date da).isSome) (h2 : (parse_date db).isSome)
    (ha : parse_transaction_amounts (line.drop (l + 1)) = .ok [(amount, crdr)]) :
    (amount ≤ 10000000 → try_transaction line ≠ .err .amountOutOfRange) ∧
      (10000000 < amount → try_transaction line = .err .amountOutOfRange) := by
  obtain ⟨r1, hr1⟩ := Option.isSome_iff_exists.mp h1
  obtain ⟨r2, hr2⟩ := Option.isSome_iff_exists.mp h2
  obtain ⟨g, hg, _, hcrdr⟩ := pta_ok_singleton _ amount crdr ha
  have hgmem : g ∈ findAmounts (line.drop (l + 1)) := by
    rw [hg]
    exact List.mem_singleton.mpr rfl
  have hshape := findAmountsAux_suf_shape _ _ g hgmem
  have hmem : crdr ∈ (["CR".data, "DR".data, "Payment".data] : List Chars) := by
    rw [hcrdr]
    exact (crdrOf_shape g.2 hshape).2
  have hMain : try_transaction line =
      if 10000000 < amount then .err .amountOutOfRange
      else buildTx r1 r2 amount crdr (line.drop (l + 1)) := by
    unfold try_transaction
    rw [hd]
    dsimp only
    rw [if_neg (fun hc => hc rfl)]
    rw [hr1, hr2]
    dsimp only [Option.getD]
    rw [ha]
    dsimp only
    rw [if_neg (not_not_intro hmem)]
  constructor
  · intro hle hcontra
    rw [hMain, if_neg (by omega)] at hcontra
    unfold buildTx at hcontra
    split at hcontra
    · exact Err.noConfusion (Res.err.inj hcontra)
    · exact Res.noConfusion hcontra
  · intro hlt
    rw [hMain, if_pos hlt]

/-- C5, witness: a line carrying exactly `100,000.00` is not rejected, and
the same line with `100,000.01` is rejected. -/
theorem C5_witness :
    (try_transaction ("01 Mar 24 02 Apr 24 X,\"100,000.00\"".data) ≠
        .err .amountOutOfRange) ∧
      try_transaction ("01 Mar 24 02 Apr 24 X,\"100,000.01\"".data) =
        .err .amountOutOfRange :=
  ⟨(C5_sanity_ceiling ("01 Mar 24 02 Apr 24 X,\"100,000.00\"".data)
      ("01 Mar 24".data) ("02 Apr 24".data) 18 10000000 ("Payment".data)
      (by decide) (by decide) (by decide) (by decide)).1 (by decide),
    (C5_sanity_ceiling ("01 Mar 24 02 Apr 24 X,\"100,000.01\"".data)
      ("01 Mar 24".data) ("02 Apr 24".data) 18 10000001 ("Payment".data)
      (by decide) (by decide) (by decide) (by decide)).2 (by decide)⟩

/-! ### C9 -/

/-- C9: the crdr field of every parsed `Transaction` is determined totally
by the suffix capture of the single amount match — `crdrOf` maps the
absent suffix to `Payment`, literal `CR` to `CR` and literal `DR` to `DR` —
and is therefore always one of `{CR, DR, Payment}`. -/
theorem C9_crdr_total (line : Chars) (t : Transaction)
    (h : try_transaction line = .ok [.tx t]) :
    (crdrOf [] = "Payment".data ∧ crdrOf ['C', 'R'] = "CR".data ∧
        crdrOf ['D', 'R'] = "DR".data) ∧
      (∃ g : Chars × Chars,
        findAmounts (line.drop ((extract_dates line).2.2.getD 0 + 1)) = [g] ∧
          t.crdr = crdrOf g.2) ∧
      (t.crdr = "CR".data ∨ t.crdr = "DR".data ∨ t.crdr = "Payment".data) := by
  refine ⟨⟨by decide, by decide, by decide⟩, ?_⟩
  unfold try_transaction buildTx at h
  split at h
  · exact absurd (Res.ok.inj h) (by simp)
  · split at h
    · split at h
      · exact Res.noConfusion h
      · split at h
        · split at h
          · exact Res.noConfusion h
          · split at h
            · rename_i xt da fi li rest0 db0 heqD hfi xo1 xo2 rdate ddate hr1
                hr2 xr amounts amount crdr heqA
              split at h
              · exact Res.noConfusion h
              · split at h
                · exact Res.noConfusion h
                · split at h
                  · exact Res.noConfusion h
                  · rename_i hsub astart hfind
                    have ht : t = ⟨rdate, ddate, amount, crdr, _, _⟩ :=
                      Rec.tx.inj (List.cons.inj (Res.ok.inj h.symm)).1
                    obtain ⟨g, hg, _, hcrdr⟩ :=
                      pta_ok_singleton _ amount crdr heqA
                    have hshape := findAmountsAux_suf_shape _ _ g
                      (hg ▸ List.mem_singleton.mpr rfl)
                    rw [heqD]
                    refine ⟨⟨g, ?_, ?_⟩, ?_⟩
                    · exact hg
                    · rw [ht, ← hcrdr]
                    · rw [ht]
                      simp only
                      rw [hcrdr]
                      exact (crdrOf_shape g.2 hshape).1
            · exact Res.noConfusion h
        · exact Res.noConfusion h
    · exact Res.noConfusion h

/-- C9, witness at a concrete line whose amount carries a `CR` suffix. -/
theorem C9_witness :
    (crdrOf [] = "Payment".data ∧ crdrOf ['C', 'R'] = "CR".data ∧
        crdrOf ['D', 'R'] = "DR".data) ∧
      (∃ g : Chars × Chars,
        findAmounts (("01 Mar 24 02 Apr 24 X,1.23CR".data).drop
          ((extract_dates ("01 Mar 24 02 Apr 24 X,1.23CR".data)).2.2.getD 0 + 1)) =
            [g] ∧
          (⟨(2024, 3, 1), (2024, 4, 2), 123, "CR".data, false,
            "X CR".data⟩ : Transaction).crdr = crdrOf g.2) ∧
      ((⟨(2024, 3, 1), (2024, 4, 2), 123, "CR".data, false,
          "X CR".data⟩ : Transaction).crdr = "CR".data ∨
        (⟨(2024, 3, 1), (2024, 4, 2), 123, "CR".data, false,
          "X CR".data⟩ : Transaction).crdr = "DR".data ∨
        (⟨(2024, 3, 1), (2024, 4, 2), 123, "CR".data, false,
          "X CR".data⟩ : Transaction).crdr = "Payment".data) :=
  C9_crdr_total ("01 Mar 24 02 Apr 24 X,1.23CR".data)
    ⟨(2024, 3, 1), (2024, 4, 2), 123, "CR".data, false, "X CR".data⟩
    (by decide)

/-! ### C8 -/

/-- The comma-grouped textual rendering of a numeral: a leading group, the
comma-prefixed three-digit groups, and two fraction digits. -/
def groupedNumeral (g0 : Chars) (gs : List Chars) (f1 f2 : Char) : Chars :=
  g0 ++ (gs.map fun g => ',' :: g).flatten ++ '.' :: [f1, f2]

theorem digit_keeps (c : Char) (h : c.isDigit = true) :
    (c != ',' && c != '.') = true := by
  have hc1 : c ≠ ',' := by
    intro rfl2
    rw [rfl2] at h
    exact absurd h (by decide)
  have hc2 : c ≠ '.' := by
    intro rfl2
    rw [rfl2] at h
    exact absurd h (by decide)
  simp [bne_iff_ne, hc1, hc2]

theorem takeWhile_digit_run (g0 r : Chars)
    (hg : ∀ c ∈ g0, c.isDigit = true) (hr : headIsDigit r = false) :
    (g0 ++ r).takeWhile Char.isDigit = g0 ∧
      (g0 ++ r).dropWhile Char.isDigit = r := by
  induction g0 with
  | nil =>
    cases r with
    | nil => exact ⟨rfl, rfl⟩
    | cons c t =>
      have hc : c.isDigit = false := hr
      simp [List.takeWhile_cons, List.dropWhile_cons, hc]
  | cons a g0' ih =>
    have ha : a.isDigit = true := hg a (List.mem_cons_self a g0')
    have ih2 := ih fun c hc => hg c (List.mem_cons_of_mem a hc)
    simp [List.takeWhile_cons, List.dropWhile_cons, ha, ih2.1, ih2.2]

theorem headIsDigit_groups (gs : List Chars) (l : Chars) :
    headIsDigit ((gs.map fun g => ',' :: g).flatten ++ '.' :: l) = false := by
  cases gs with
  | nil => rfl
  | cons g gs' => rfl

theorem groupLoop_groups (gs : List Chars) (acc : Chars) (f1 f2 : Char)
    (hg : ∀ g ∈ gs, g.length = 3 ∧ ∀ c ∈ g, c.isDigit = true) :
    groupLoop acc ((gs.map fun g => ',' :: g).flatten ++ '.' :: [f1, f2]) =
      some (acc ++ (gs.map fun g => ',' :: g).flatten, '.' :: [f1, f2]) := by
  induction gs generalizing acc with
  | nil =>
    simp only [List.map_nil, List.flatten_nil, List.nil_append, List.append_nil]
    rfl
  | cons g gs' ih =>
    obtain ⟨hlen, hdig⟩ := hg g (List.mem_cons_self g gs')
    rcases g with _ | ⟨x, _ | ⟨y, _ | ⟨z, _ | ⟨w, t⟩⟩⟩⟩
    · simp at hlen
    · simp at hlen
    · simp at hlen
    · have hx : x.isDigit = true := hdig x (by simp)
      have hy : y.isDigit = true := hdig y (by simp)
      have hz : z.isDigit = true := hdig z (by simp)
      have hrec := ih (acc ++ [',', x, y, z])
        (fun g2 hg2 => hg g2 (List.mem_cons_of_mem _ hg2))
      show groupLoop acc
          (',' :: x :: y :: z ::
            ((gs'.map fun g => ',' :: g).flatten ++ '.' :: [f1, f2])) =
        some (acc ++ ',' :: x :: y :: z :: (gs'.map fun g => ',' :: g).flatten,
          '.' :: [f1, f2])
      rw [groupLoop, if_pos ⟨rfl, by simp [hx, hy, hz]⟩,
        if_neg (by rw [headIsDigit_groups]; exact Bool.false_ne_true), hrec]
      simp [List.append_assoc]
    · simp at hlen

theorem parseNumeral_grouped (g0 : Chars) (gs : List Chars) (f1 f2 : Char)
    (h0 : g0 ≠ [] ∧ g0.length ≤ 3 ∧ ∀ c ∈ g0, c.isDigit = true)
    (hg : ∀ g ∈ gs, g.length = 3 ∧ ∀ c ∈ g, c.isDigit = true)
    (hf : f1.isDigit = true ∧ f2.isDigit = true) :
    parseNumeral (groupedNumeral g0 gs f1 f2) =
      some (groupedNumeral g0 gs f1 f2, []) := by
  obtain ⟨hne, hle, hdig⟩ := h0
  have hsplit := takeWhile_digit_run g0
    ((gs.map fun g => ',' :: g).flatten ++ '.' :: [f1, f2]) hdig
    (headIsDigit_groups gs [f1, f2])
  have hcond : ¬ ((g0.isEmpty ||
      decide (3 < ((g0 : Chars)).length)) = true) := by
    simp only [Bool.or_eq_true, List.isEmpty_iff, decide_eq_true_eq]
    push_neg
    exact ⟨hne, by omega⟩
  unfold parseNumeral groupedNumeral
  rw [List.append_assoc g0, hsplit.1, hsplit.2, if_neg hcond,
    groupLoop_groups gs g0 f1 f2 hg]
  simp [hf.1, hf.2, List.append_assoc]

theorem amountMatchHere_grouped (g0 : Chars) (gs : List Chars) (f1 f2 : Char)
    (h0 : g0 ≠ [] ∧ g0.length ≤ 3 ∧ ∀ c ∈ g0, c.isDigit = true)
    (hg : ∀ g ∈ gs, g.length = 3 ∧ ∀ c ∈ g, c.isDigit = true)
    (hf : f1.isDigit = true ∧ f2.isDigit = true) :
    amountMatchHere (',' :: groupedNumeral g0 gs f1 f2) =
      some ((groupedNumeral g0 gs f1 f2, []), []) := by
  unfold amountMatchHere
  dsimp only
  rw [if_pos (by decide), parseNumeral_grouped g0 gs f1 f2 h0 hg hf]
  rfl

theorem findAmounts_grouped (g0 : Chars) (gs : List Chars) (f1 f2 : Char)
    (h0 : g0 ≠ [] ∧ g0.length ≤ 3 ∧ ∀ c ∈ g0, c.isDigit = true)
    (hg : ∀ g ∈ gs, g.length = 3 ∧ ∀ c ∈ g, c.isDigit = true)
    (hf : f1.isDigit = true ∧ f2.isDigit = true) :
    findAmounts (',' :: groupedNumeral g0 gs f1 f2) =
      [(groupedNumeral g0 gs f1 f2, [])] := by
  unfold findAmounts
  rw [List.length_cons, findAmountsAux,
    amountMatchHere_grouped g0 gs f1 f2 h0 hg hf]
  dsimp only
  rw [findAmountsAux_nil]

theorem centsOf_grouped (g0 : Chars) (gs : List Chars) (f1 f2 : Char)
    (hdig : ∀ c ∈ g0, c.isDigit = true)
    (hg : ∀ g ∈ gs, g.length = 3 ∧ ∀ c ∈ g, c.isDigit = true)
    (hf : f1.isDigit = true ∧ f2.isDigit = true) :
    centsOfNumeral (groupedNumeral g0 gs f1 f2) =
      natOfDigits (g0 ++ gs.flatten ++ [f1, f2]) := by
  unfold centsOfNumeral groupedNumeral
  rw [List.filter_append, List.filter_append]
  have h1 : g0.filter (fun c => c != ',' && c != '.') = g0 :=
    List.filter_eq_self.mpr fun c hc => digit_keeps c (hdig c hc)
  have h2 : ((gs.map fun g => ',' :: g).flatten).filter
      (fun c => c != ',' && c != '.') = gs.flatten := by
    induction gs with
    | nil => rfl
    | cons g gs' ih =>
      obtain ⟨_, hdg⟩ := hg g (List.mem_cons_self g gs')
      have ihg := ih fun g2 hg2 => hg g2 (List.mem_cons_of_mem _ hg2)
      simp only [List.map_cons, List.flatten_cons, List.filter_append,
        List.filter_cons]
      rw [ihg]
      simp [show ((',' : Char) != ',' && (',' : Char) != '.') = false by decide,
        List.filter_eq_self.mpr fun c hc => digit_keeps c (hdg c hc)]
  have hff : ([f1, f2] : Chars).filter (fun c => c != ',' && c != '.') =
      [f1, f2] := by
    refine List.filter_eq_self.mpr fun c hc => ?_
    rcases List.mem_cons.mp hc with rfl | hc2
    · exact digit_keeps c hf.1
    · rw [List.mem_singleton.mp hc2]
      exact digit_keeps f2 hf.2
  have h3 : (('.' :: [f1, f2] : Chars)).filter
      (fun c => c != ',' && c != '.') = [f1, f2] := by
    rw [List.filter_cons]
    simp [show (('.' : Char) != ',' && ('.' : Char) != '.') = false by decide,
      hff]
  rw [h1, h2, h3]

/-- C8, amended: a line consisting of a delimiter followed by the
comma-grouped textual form of an amount extracts to exactly the decimal
value of the ungrouped digit string (grouping commas are stripped before
parsing and do not change the value); the spec's further claim that a line
ending in the *ungrouped* form extracts to the same value fails whenever
the integer part needs grouping (see the counterexample). -/
theorem C8_grouped_extraction (g0 : Chars) (gs : List Chars) (f1 f2 : Char)
    (h0 : g0 ≠ [] ∧ g0.length ≤ 3 ∧ ∀ c ∈ g0, c.isDigit = true)
    (hg : ∀ g ∈ gs, g.length = 3 ∧ ∀ c ∈ g, c.isDigit = true)
    (hf : f1.isDigit = true ∧ f2.isDigit = true) :
    parse_transaction_amounts (',' :: groupedNumeral g0 gs f1 f2) =
      .ok [(natOfDigits (g0 ++ gs.flatten ++ [f1, f2]), "Payment".data)] := by
  unfold parse_transaction_amounts
  rw [findAmounts_grouped g0 gs f1 f2 h0 hg hf]
  dsimp only [List.map_cons, List.map_nil]
  rw [centsOf_grouped g0 gs f1 f2 h0.2.2 hg hf]
  rfl

/-- C8, witness: the spec's own example `4,000.00` yields the value of the
ungrouped digit string, 400000 cents = 4000.00. -/
theorem C8_witness :
    parse_transaction_amounts
        (',' :: groupedNumeral ['4'] [['0', '0', '0']] '0' '0') =
      .ok [(natOfDigits (['4'] ++ ([['0', '0', '0']] : List Chars).flatten ++
        ['0', '0']), "Payment".data)] :=
  C8_grouped_extraction ['4'] [['0', '0', '0']] '0' '0'
    ⟨by decide, by decide, by decide⟩ (by decide) ⟨by decide, by decide⟩

end HSBC
